import Mathlib

/-!
Verification of `scripts/performance/db-analysis/psql_timeout_runner.py`.

The script builds a `psql` argument vector from parsed command-line options,
strips the query component from a connection string with
`urllib.parse.urlsplit` / `urlunsplit`, launches the client with an augmented
environment, and supervises it under a hard timeout.

The embedding below models strings as `List Char` where character-level
parsing matters (the DSN sanitizer) and as `String` elsewhere.  `urlsplit`
and `urlunsplit` are translated from CPython's `urllib/parse.py` (the
library the script calls), at the vanilla CPython 3.10/3.11 revision the
`str | None` annotations of the script require: unsafe-byte removal, scheme
detection with lowercasing, netloc extraction after `//` with the
mismatched-bracket validity check (whose `ValueError` is modelled as
`Except.error`), fragment split before query split, and reassembly that
restores `//` for a nonempty netloc or a path starting with `//`.  Two
stdlib checks that reject extra exotic inputs (the non-ASCII netloc NFKC
check and, on newer patch levels, bracketed-host address validation) are
outside the character-level model; later CPython security patches also
changed `urlunsplit`'s `//`-restoration condition, which is documented
where it matters.
-/

namespace PsqlRunner

/-- Characters CPython's urlsplit removes before parsing (tab, CR, LF). -/
def isUnsafeChar (c : Char) : Bool := c == '\t' || c == '\r' || c == '\n'

/-- ASCII alphabetic test, mirroring `url[0].isascii() and url[0].isalpha()`. -/
def isAsciiAlphaCh (c : Char) : Bool :=
  ('a' ≤ c && c ≤ 'z') || ('A' ≤ c && c ≤ 'Z')

/-- Membership in urllib's `scheme_chars` (letters, digits, `+`, `-`, `.`). -/
def isSchemeChar (c : Char) : Bool :=
  isAsciiAlphaCh c || ('0' ≤ c && c ≤ '9') || c == '+' || c == '-' || c == '.'

/-- ASCII lowercasing of a single character, as `str.lower` acts on the
ASCII-only scheme component. -/
def lowerAscii (c : Char) : Char :=
  match c with
  | 'A' => 'a' | 'B' => 'b' | 'C' => 'c' | 'D' => 'd' | 'E' => 'e'
  | 'F' => 'f' | 'G' => 'g' | 'H' => 'h' | 'I' => 'i' | 'J' => 'j'
  | 'K' => 'k' | 'L' => 'l' | 'M' => 'm' | 'N' => 'n' | 'O' => 'o'
  | 'P' => 'p' | 'Q' => 'q' | 'R' => 'r' | 'S' => 's' | 'T' => 't'
  | 'U' => 'u' | 'V' => 'v' | 'W' => 'w' | 'X' => 'x' | 'Y' => 'y'
  | 'Z' => 'z'
  | other => other

/-- The lowercase ASCII letters, used to case on the image of `lowerAscii`. -/
def lowerLetters : List Char :=
  ['a', 'b', 'c', 'd', 'e', 'f', 'g', 'h', 'i', 'j', 'k', 'l', 'm',
   'n', 'o', 'p', 'q', 'r', 's', 't', 'u', 'v', 'w', 'x', 'y', 'z']

/-- `str.split(sep, 1)` on character lists: the text before the first
occurrence of `sep`, and, when `sep` occurs, the text after it. -/
def splitFirst (sep : Char) : List Char → List Char × Option (List Char)
  | [] => ([], none)
  | c :: cs =>
    if c = sep then ([], some cs)
    else
      let r := splitFirst sep cs
      (c :: r.1, r.2)

/-- The delimiters terminating a netloc in `urllib.parse._splitnetloc`. -/
def netlocDelims : List Char := ['/', '?', '#']

/-- Longest run of characters avoiding every delimiter, together with the
rest of the list: the core of `urllib.parse._splitnetloc`. -/
def spanNot (delims : List Char) : List Char → List Char × List Char
  | [] => ([], [])
  | c :: cs =>
    if c ∈ delims then ([], c :: cs)
    else
      let r := spanNot delims cs
      (c :: r.1, r.2)

/-- The five components produced by `urllib.parse.urlsplit`. -/
structure SplitResult where
  scheme : List Char
  netloc : List Char
  path : List Char
  query : List Char
  fragment : List Char
deriving DecidableEq, Repr

/-- Validity of a candidate scheme component: nonempty, ASCII letter first,
scheme characters afterwards (the loop guarding scheme extraction). -/
def schemeLike : List Char → Bool
  | [] => false
  | c :: cs => isAsciiAlphaCh c && cs.all isSchemeChar

/-- Scheme extraction of urlsplit: split at the first colon and accept the
piece before it only when it is scheme-like, lowercasing on acceptance. -/
def splitScheme (url : List Char) : List Char × List Char :=
  match splitFirst ':' url with
  | (pre, some rest) =>
    if schemeLike pre then (pre.map lowerAscii, rest) else ([], url)
  | (_, none) => ([], url)

/-- Netloc extraction of urlsplit: only when the input starts with two
slashes, take characters up to the first of `/`, `?`, `#`. -/
def splitNetloc (l : List Char) : List Char × List Char :=
  match l with
  | c1 :: c2 :: rest =>
    if c1 = '/' ∧ c2 = '/' then spanNot netlocDelims rest
    else ([], l)
  | _ => ([], l)

/-- The bracket sanity check of urlsplit that raises `ValueError` on a
netloc containing `[` without `]` or vice versa. -/
def bracketBad (n : List Char) : Bool :=
  (decide ('[' ∈ n) && !decide (']' ∈ n)) ||
  (decide (']' ∈ n) && !decide ('[' ∈ n))

/-- The stages of urlsplit after scheme removal: netloc extraction with the
bracket check, then the fragment split at the first `#`, then the query
split at the first `?`; returns (netloc, path, query, fragment). -/
def restSplit (u1 : List Char) : Except Unit (List Char × List Char × List Char × List Char) :=
  let s2 := splitNetloc u1
  if bracketBad s2.1 then .error ()
  else
    let s3 := splitFirst '#' s2.2
    let s4 := splitFirst '?' s3.1
    .ok (s2.1, s4.1, s4.2.getD [], s3.2.getD [])

/-- `urllib.parse.urlsplit` with `allow_fragments=True`: remove unsafe
bytes, extract scheme, extract netloc after `//`, validate brackets, split
off the fragment at the first `#`, then the query at the first `?`. -/
def urlsplit (dsn : List Char) : Except Unit SplitResult :=
  let url := dsn.filter (fun c => !(isUnsafeChar c))
  let s1 := splitScheme url
  match restSplit s1.2 with
  | .error e => .error e
  | .ok (n, p, q, f) => .ok ⟨s1.1, n, p, q, f⟩

/-- `urllib.parse.urlunsplit`: reassemble the five components, inserting
`//` before a nonempty netloc (or when the path starts with `//`), `:` after
a nonempty scheme, `?` before a nonempty query, `#` before a nonempty
fragment. -/
def urlunsplit (s n p q f : List Char) : List Char :=
  let url :=
    if n ≠ [] ∨ p.take 2 = ['/', '/'] then
      '/' :: '/' :: (n ++ (if p ≠ [] ∧ p.head? ≠ some '/' then '/' :: p else p))
    else p
  let url := if s ≠ [] then s ++ ':' :: url else url
  let url := if q ≠ [] then url ++ '?' :: q else url
  if f ≠ [] then url ++ '#' :: f else url

/-- The fragment suffix appended by `urlunsplit`: `#`-prefixed when the
fragment is nonempty, nothing otherwise. -/
def fragPart (f : List Char) : List Char := if f ≠ [] then '#' :: f else []

/-- Invariants satisfied by every successful result of `urlsplit`; they are
exactly what makes `urlunsplit` followed by `urlsplit` the identity on the
components when the query is dropped. -/
structure GoodSplit (r : SplitResult) : Prop where
  scheme_ok : r.scheme = [] ∨ schemeLike r.scheme = true
  scheme_lower : r.scheme.map lowerAscii = r.scheme
  netloc_delim : ∀ x ∈ r.netloc, x ∉ netlocDelims
  netloc_clean : ∀ x ∈ r.netloc, isUnsafeChar x = false
  netloc_brk : ('[' ∈ r.netloc) ↔ (']' ∈ r.netloc)
  path_hash : '#' ∉ r.path
  path_q : '?' ∉ r.path
  path_clean : ∀ x ∈ r.path, isUnsafeChar x = false
  path_slash : r.netloc ≠ [] → r.path = [] ∨ ∃ t, r.path = '/' :: t
  path_colon : r.scheme = [] → ':' ∈ r.path →
    schemeLike ((splitFirst ':' r.path).1) = false
  frag_clean : ∀ x ∈ r.fragment, isUnsafeChar x = false

/-- `sanitize_dsn` from the script: return `None`/empty unchanged, return
the input unchanged when its parsed query is empty, otherwise rebuild the
string with the query dropped.  A `ValueError` escaping `urlsplit`
propagates (modelled by `Except.error`). -/
def sanitize_dsn (dsn : Option (List Char)) : Except Unit (Option (List Char)) :=
  match dsn with
  | none => .ok none
  | some d =>
    if d.isEmpty then .ok (some d)
    else
      match urlsplit d with
      | .error e => .error e
      | .ok parsed =>
        if parsed.query.isEmpty then .ok (some d)
        else .ok (some (urlunsplit parsed.scheme parsed.netloc parsed.path [] parsed.fragment))

/-- The argparse namespace of the script: `None` encodes an option that was
not supplied; `no_pager` and `on_error_stop` are `store_true` flags. -/
structure Args where
  dsn : Option String
  host : Option String
  port : Option Int
  username : Option String
  database : Option String
  password : Option String
  timeout : Int
  command : Option String
  file : Option String
  no_pager : Bool
  on_error_stop : Bool

/-- Python truthiness of an optional string: `False` for `None` and `""`. -/
def truthyS : Option String → Bool
  | none => false
  | some s => !s.isEmpty

/-- Python truthiness of an optional integer: `False` for `None` and `0`. -/
def truthyI : Option Int → Bool
  | none => false
  | some n => !(n == 0)

/-- Python truthiness of the sanitized DSN (an optional string). -/
def truthyL : Option (List Char) → Bool
  | none => false
  | some l => !l.isEmpty

/-- The connection tokens of `build_psql_command`: the sanitized DSN when
truthy, otherwise one flag-and-value pair per truthy individual field in
the order host, port, username, database. -/
def connArgs (args : Args) (dsnO : Option (List Char)) : List String :=
  if truthyL dsnO then [String.mk (dsnO.getD [])]
  else
    (if truthyS args.host then ["-h", args.host.getD ""] else []) ++
    (if truthyI args.port then ["-p", toString (args.port.getD 0)] else []) ++
    (if truthyS args.username then ["-U", args.username.getD ""] else []) ++
    (if truthyS args.database then ["-d", args.database.getD ""] else [])

/-- The trailing command-or-file tokens of `build_psql_command`: `-c` for a
truthy inline command, else `-f` for a truthy file, else nothing. -/
def cmdFileArgs (args : Args) : List String :=
  if truthyS args.command then ["-c", args.command.getD ""]
  else if truthyS args.file then ["-f", args.file.getD ""]
  else []

/-- `build_psql_command` from the script: `["psql", "-X"]`, then connection
tokens, then the stop-on-error marker, then the command-or-file tokens.
The call to `sanitize_dsn` can propagate a `ValueError`. -/
def build_psql_command (args : Args) : Except Unit (List String) :=
  match sanitize_dsn (args.dsn.map String.data) with
  | .error e => .error e
  | .ok dsnO =>
    .ok (["psql", "-X"] ++ connArgs args dsnO ++
      (if args.on_error_stop then ["-v", "ON_ERROR_STOP=1"] else []) ++
      cmdFileArgs args)

/-- The argument vector actually launched by `main`: the built command with
the pager-disabling tokens appended last when `--no-pager` was given. -/
def full_command (args : Args) : Except Unit (List String) :=
  match build_psql_command args with
  | .error e => .error e
  | .ok c => .ok (c ++ (if args.no_pager then ["-P", "pager=off"] else []))

/-- The environment handed to the child: a copy of the caller's environment
with `PGPASSWORD` set when `--password` was supplied truthy. -/
def child_env (args : Args) (environ : String → Option String) : String → Option String :=
  match args.password with
  | some pw =>
    if !pw.isEmpty then fun k => if k = "PGPASSWORD" then some pw else environ k
    else environ
  | none => environ

/-- Outcome of the single child process, abstracting the operating system:
`Popen` raises `FileNotFoundError`, or `wait` returns a code within the
timeout, or `wait` raises `TimeoutExpired`. -/
inductive ChildOutcome where
  | notFound
  | exited (code : Int)
  | timedOut

/-- Observable result of one run of `main`: the process exit code, whether
a child process was started, whether the supervisor performed the bounded
wait, whether it killed the child, and the diagnostic lines written to the
error stream. -/
structure MainResult where
  exit : Int
  launched : Bool
  waited : Bool
  killed : Bool
  stderrLines : List String

/-- The argparse usage-error message of `main` (argparse exits with 2). -/
def usage_error_message : String := "Either --command or --file must be provided."

/-- The stderr line printed when `psql` cannot be found. -/
def not_found_message : String :=
  "psql executable not found. Please install PostgreSQL client tools."

/-- The stderr line printed when the timeout elapses; it embeds the
configured timeout value. -/
def timeout_message (t : Int) : String :=
  "psql command timed out after " ++ toString t ++ " seconds"

/-- `main` after argument parsing: the usage check, then command
construction (whose `ValueError` would propagate), then launch, bounded
wait, and the supervisor's case split on the child outcome. -/
def main_run (args : Args) (child : ChildOutcome) : Except Unit MainResult :=
  if !truthyS args.command && !truthyS args.file then
    .ok ⟨2, false, false, false, [usage_error_message]⟩
  else
    match full_command args with
    | .error e => .error e
    | .ok _ =>
      match child with
      | .notFound => .ok ⟨127, false, false, false, [not_found_message]⟩
      | .exited c => .ok ⟨c, true, true, false, []⟩
      | .timedOut => .ok ⟨124, true, true, true, [timeout_message args.timeout]⟩

/-- Invocation showing that a supplied DSN whose sanitized form is empty
falls through to the individual connection fields. -/
def c1Args : Args :=
  ⟨some "?a", some "localhost", none, none, none, none, 30, some "SELECT 1", none, false, false⟩

/-- Invocation from the specification example: a DSN with a query string,
together with individual fields that must not be emitted. -/
def c1SpecArgs : Args :=
  ⟨some "postgres://user@host/db?sslmode=require", some "otherhost", some 5433,
   some "alice", some "mydb", some "pw", 30, some "SELECT 1", none, false, false⟩

/-- Invocation with port zero supplied: Python truthiness drops the pair. -/
def c4Args : Args :=
  ⟨none, none, some 0, none, none, none, 30, some "x", none, false, false⟩

/-- Invocation from the specification example with all four fields. -/
def c4SpecArgs : Args :=
  ⟨none, some "localhost", some 5433, some "alice", some "mydb", none, 30,
   some "q", none, false, false⟩

/-- Invocation from the specification example with stop-on-error. -/
def c5Args : Args :=
  ⟨none, none, none, none, none, none, 30, some "SELECT 1", none, false, true⟩

/-- Invocation with neither command nor file. -/
def c6Args : Args :=
  ⟨none, none, none, none, none, none, 30, none, none, false, false⟩

/-- Invocation with a one-second timeout and an inline command. -/
def c7Args : Args :=
  ⟨none, none, none, none, none, none, 1, some "SELECT 1", none, false, false⟩

/-- Invocation running a SQL file. -/
def c8Args : Args :=
  ⟨none, none, none, none, none, none, 30, none, some "analyze.sql", false, false⟩

/-- Invocation supplying an empty password. -/
def c9Args : Args :=
  ⟨none, none, none, none, none, some "", 30, some "x", none, false, false⟩

/-- An environment that already carries a PGPASSWORD entry. -/
def c9Env : String → Option String :=
  fun k => if k = "PGPASSWORD" then some "old" else none

/-- Invocation supplying a nonempty password. -/
def c9SpecArgs : Args :=
  ⟨none, none, none, none, none, some "secret", 30, some "x", none, false, false⟩

/-- An environment carrying an unrelated entry. -/
def c9SpecEnv : String → Option String :=
  fun k => if k = "HOME" then some "/home/u" else none

/-- A minimal invocation for the argument-vector shape invariant. -/
def c10Args : Args :=
  ⟨none, none, none, none, none, none, 30, some "x", none, false, false⟩

/-- A character urlsplit removes is one of tab, CR, LF. -/
theorem isUnsafeChar_eq_true {c : Char} (h : isUnsafeChar c = true) :
    c = '\t' ∨ c = '\r' ∨ c = '\n' := by
  simp [isUnsafeChar] at h
  tauto

/-- ASCII letters are not among the removed characters. -/
theorem alpha_not_unsafe {c : Char} (h : isAsciiAlphaCh c = true) :
    isUnsafeChar c = false := by
  cases hu : isUnsafeChar c with
  | false => rfl
  | true =>
    rcases isUnsafeChar_eq_true hu with h1 | h1 | h1 <;> subst h1 <;>
      exact absurd h (by decide)

/-- Scheme characters are not among the removed characters. -/
theorem schemeChar_not_unsafe {c : Char} (h : isSchemeChar c = true) :
    isUnsafeChar c = false := by
  cases hu : isUnsafeChar c with
  | false => rfl
  | true =>
    rcases isUnsafeChar_eq_true hu with h1 | h1 | h1 <;> subst h1 <;>
      exact absurd h (by decide)

/-- `lowerAscii` either fixes its argument or yields a lowercase letter. -/
theorem lowerAscii_cases (c : Char) : lowerAscii c = c ∨ lowerAscii c ∈ lowerLetters := by
  unfold lowerAscii
  split <;> first | (right; decide) | (left; rfl)

/-- Lowercase letters are fixed by `lowerAscii`. -/
theorem lowerAscii_fix : ∀ c ∈ lowerLetters, lowerAscii c = c := by decide

/-- Lowercase letters are ASCII alphabetic. -/
theorem lowerLetters_alpha : ∀ c ∈ lowerLetters, isAsciiAlphaCh c = true := by decide

/-- Lowercase letters are scheme characters. -/
theorem lowerLetters_scheme : ∀ c ∈ lowerLetters, isSchemeChar c = true := by decide

/-- Lowercase letters are not removed characters. -/
theorem lowerLetters_not_unsafe : ∀ c ∈ lowerLetters, isUnsafeChar c = false := by decide

/-- `lowerAscii` is idempotent. -/
theorem lowerAscii_idem (c : Char) : lowerAscii (lowerAscii c) = lowerAscii c := by
  rcases lowerAscii_cases c with h | h
  · rw [h]; exact h
  · exact lowerAscii_fix _ h

/-- `lowerAscii` preserves ASCII-alphabeticity. -/
theorem lowerAscii_alpha {c : Char} (h : isAsciiAlphaCh c = true) :
    isAsciiAlphaCh (lowerAscii c) = true := by
  rcases lowerAscii_cases c with h1 | h1
  · rw [h1]; exact h
  · exact lowerLetters_alpha _ h1

/-- `lowerAscii` preserves scheme-characterhood. -/
theorem lowerAscii_scheme {c : Char} (h : isSchemeChar c = true) :
    isSchemeChar (lowerAscii c) = true := by
  rcases lowerAscii_cases c with h1 | h1
  · rw [h1]; exact h
  · exact lowerLetters_scheme _ h1

/-- `lowerAscii` maps clean characters to clean characters. -/
theorem lowerAscii_not_unsafe {c : Char} (h : isUnsafeChar c = false) :
    isUnsafeChar (lowerAscii c) = false := by
  rcases lowerAscii_cases c with h1 | h1
  · rw [h1]; exact h
  · exact lowerLetters_not_unsafe _ h1

/-- Mapping `lowerAscii` twice is the same as mapping it once. -/
theorem map_lower_idem (l : List Char) : (l.map lowerAscii).map lowerAscii = l.map lowerAscii := by
  rw [List.map_map]
  exact List.map_congr_left (fun a _ => lowerAscii_idem a)

/-- A list containing a character that is neither alphabetic nor a scheme
character is not scheme-like. -/
theorem schemeLike_false_of_mem {x : Char} {pre : List Char} (hx : x ∈ pre)
    (h1 : isAsciiAlphaCh x = false) (h2 : isSchemeChar x = false) :
    schemeLike pre = false := by
  cases pre with
  | nil => rfl
  | cons c cs =>
    rcases List.mem_cons.mp hx with rfl | hmem
    · simp [schemeLike, h1]
    · have hall : cs.all isSchemeChar = false := by
        rw [List.all_eq_false]
        exact ⟨x, hmem, by simp [h2]⟩
      simp [schemeLike, hall]

/-- A list headed by a non-alphabetic character is not scheme-like. -/
theorem schemeLike_cons_bad {x : Char} (xs : List Char) (h : isAsciiAlphaCh x = false) :
    schemeLike (x :: xs) = false := by
  simp [schemeLike, h]

/-- A scheme-like list contains no colon. -/
theorem schemeLike_not_mem_colon {pre : List Char} (h : schemeLike pre = true) :
    ':' ∉ pre := by
  intro hmem
  rw [schemeLike_false_of_mem hmem (by decide) (by decide)] at h
  exact Bool.false_ne_true h

/-- Every character of a scheme-like list survives the unsafe filter. -/
theorem schemeLike_clean {pre : List Char} (h : schemeLike pre = true) :
    ∀ x ∈ pre, isUnsafeChar x = false := by
  cases pre with
  | nil => intro x hx; cases hx
  | cons c cs =>
    simp only [schemeLike, Bool.and_eq_true, List.all_eq_true] at h
    intro x hx
    rcases List.mem_cons.mp hx with rfl | hmem
    · exact alpha_not_unsafe h.1
    · exact schemeChar_not_unsafe (h.2 x hmem)

/-- Scheme-likeness survives ASCII lowercasing. -/
theorem schemeLike_map_lower {pre : List Char} (h : schemeLike pre = true) :
    schemeLike (pre.map lowerAscii) = true := by
  cases pre with
  | nil => cases h
  | cons c cs =>
    simp only [schemeLike, Bool.and_eq_true, List.all_eq_true] at h
    simp only [List.map_cons, schemeLike, Bool.and_eq_true, List.all_eq_true]
    refine ⟨lowerAscii_alpha h.1, ?_⟩
    intro x hx
    rcases List.mem_map.mp hx with ⟨y, hy, rfl⟩
    exact lowerAscii_scheme (h.2 y hy)

/-- `splitFirst` on a list avoiding the separator returns the list whole. -/
theorem splitFirst_of_not_mem {sep : Char} {l : List Char} (h : sep ∉ l) :
    splitFirst sep l = (l, none) := by
  induction l with
  | nil => rfl
  | cons c cs ih =>
    have hc : ¬ c = sep := fun hE => h (hE ▸ List.mem_cons_self c cs)
    have hcs : sep ∉ cs := fun hm => h (List.mem_cons_of_mem c hm)
    simp [splitFirst, hc, ih hcs]

/-- `splitFirst` passes over a separator-free front segment. -/
theorem splitFirst_append_not_mem {sep : Char} {a : List Char} (b : List Char) (h : sep ∉ a) :
    splitFirst sep (a ++ b) = (a ++ (splitFirst sep b).1, (splitFirst sep b).2) := by
  induction a with
  | nil => simp
  | cons c cs ih =>
    have hc : ¬ c = sep := fun hE => h (hE ▸ List.mem_cons_self c cs)
    have hcs : sep ∉ cs := fun hm => h (List.mem_cons_of_mem c hm)
    simp [splitFirst, hc, ih hcs]

/-- `splitFirst` cuts exactly at an explicitly placed first separator. -/
theorem splitFirst_append_sep {sep : Char} {a : List Char} (b : List Char) (h : sep ∉ a) :
    splitFirst sep (a ++ sep :: b) = (a, some b) := by
  rw [splitFirst_append_not_mem (sep :: b) h]
  simp [splitFirst]

/-- The front part returned by `splitFirst` avoids the separator. -/
theorem splitFirst_fst_not_mem (sep : Char) (l : List Char) :
    sep ∉ (splitFirst sep l).1 := by
  induction l with
  | nil => simp [splitFirst]
  | cons c cs ih =>
    by_cases hc : c = sep
    · simp [splitFirst, hc]
    · simp only [splitFirst, if_neg hc]
      intro hmem
      rcases List.mem_cons.mp hmem with hE | hmem2
      · exact hc hE.symm
      · exact ih hmem2

/-- When `splitFirst` finds the separator, the input decomposes around it. -/
theorem splitFirst_decomp_some {sep : Char} {l r : List Char}
    (h : (splitFirst sep l).2 = some r) :
    l = (splitFirst sep l).1 ++ sep :: r := by
  induction l with
  | nil => simp [splitFirst] at h
  | cons c cs ih =>
    by_cases hc : c = sep
    · subst hc
      simp only [splitFirst, if_pos rfl] at h ⊢
      cases h
      rfl
    · simp only [splitFirst, if_neg hc] at h ⊢
      rw [List.cons_append]
      exact congrArg (c :: ·) (ih h)

/-- When `splitFirst` finds no separator, the front part is the input. -/
theorem splitFirst_decomp_none {sep : Char} {l : List Char}
    (h : (splitFirst sep l).2 = none) :
    (splitFirst sep l).1 = l ∧ sep ∉ l := by
  induction l with
  | nil => exact ⟨rfl, by simp⟩
  | cons c cs ih =>
    by_cases hc : c = sep
    · subst hc; simp [splitFirst] at h
    · simp only [splitFirst, if_neg hc] at h ⊢
      obtain ⟨h1, h2⟩ := ih h
      refine ⟨by rw [h1], ?_⟩
      intro hmem
      rcases List.mem_cons.mp hmem with hE | hmem2
      · exact hc hE.symm
      · exact h2 hmem2

/-- Members of the front part of `splitFirst` are members of the input. -/
theorem mem_of_mem_splitFirst_fst {sep x : Char} {l : List Char}
    (h : x ∈ (splitFirst sep l).1) : x ∈ l := by
  cases hs : (splitFirst sep l).2 with
  | none => rw [(splitFirst_decomp_none hs).1] at h; exact h
  | some r => rw [splitFirst_decomp_some hs]; exact List.mem_append_left _ h

/-- Members of the rear part of `splitFirst` are members of the input. -/
theorem mem_of_mem_splitFirst_snd {sep x : Char} {l r : List Char}
    (hs : (splitFirst sep l).2 = some r) (h : x ∈ r) : x ∈ l := by
  rw [splitFirst_decomp_some hs]
  exact List.mem_append_right _ (List.mem_cons_of_mem _ h)

/-- Appending after a segment containing the separator does not change the
front part of `splitFirst`, and the separator stays found. -/
theorem splitFirst_append_mem {sep : Char} {a : List Char} (b : List Char) (h : sep ∈ a) :
    (splitFirst sep (a ++ b)).1 = (splitFirst sep a).1 ∧
      ∃ r, (splitFirst sep (a ++ b)).2 = some r := by
  induction a with
  | nil => cases h
  | cons c cs ih =>
    by_cases hc : c = sep
    · subst hc; simp [splitFirst]
    · have hmem : sep ∈ cs := by
        rcases List.mem_cons.mp h with hE | hm
        · exact absurd hE.symm hc
        · exact hm
      obtain ⟨h1, r, h2⟩ := ih hmem
      refine ⟨?_, r, ?_⟩
      · simp only [List.cons_append, splitFirst, if_neg hc]
        exact congrArg (c :: ·) h1
      · simp only [List.cons_append, splitFirst, if_neg hc]
        exact h2

/-- A nonempty front part of `splitFirst` starts where the input starts. -/
theorem splitFirst_fst_cons {sep x : Char} {l xs : List Char}
    (h : (splitFirst sep l).1 = x :: xs) : ∃ t, l = x :: t := by
  cases l with
  | nil => simp [splitFirst] at h
  | cons c cs =>
    by_cases hc : c = sep
    · simp [splitFirst, hc] at h
    · simp only [splitFirst, if_neg hc] at h
      exact ⟨cs, by rw [(List.cons.injEq .. ).mp h |>.1]⟩

/-- The front run of `spanNot` avoids every delimiter. -/
theorem spanNot_fst_not_mem (ds l : List Char) :
    ∀ x ∈ (spanNot ds l).1, x ∉ ds := by
  induction l with
  | nil => intro x hx; cases hx
  | cons c cs ih =>
    by_cases hc : c ∈ ds
    · intro x hx; simp [spanNot, hc] at hx
    · intro x hx
      simp only [spanNot, if_neg hc] at hx
      rcases List.mem_cons.mp hx with rfl | hmem
      · exact hc
      · exact ih x hmem

/-- `spanNot` decomposes its input. -/
theorem spanNot_decomp (ds l : List Char) :
    (spanNot ds l).1 ++ (spanNot ds l).2 = l := by
  induction l with
  | nil => rfl
  | cons c cs ih =>
    by_cases hc : c ∈ ds
    · simp [spanNot, hc]
    · simp only [spanNot, if_neg hc, List.cons_append]
      rw [ih]

/-- A nonempty rest of `spanNot` starts with a delimiter. -/
theorem spanNot_snd_head {ds l : List Char} {c : Char} {cs : List Char}
    (h : (spanNot ds l).2 = c :: cs) : c ∈ ds := by
  induction l with
  | nil => simp [spanNot] at h
  | cons d es ih =>
    by_cases hd : d ∈ ds
    · simp only [spanNot, if_pos hd] at h
      cases h
      exact hd
    · simp only [spanNot, if_neg hd] at h
      exact ih h

/-- `spanNot` cuts exactly at an explicit boundary. -/
theorem spanNot_append {ds a b : List Char} (ha : ∀ x ∈ a, x ∉ ds)
    (hb : b = [] ∨ ∃ c cs, b = c :: cs ∧ c ∈ ds) : spanNot ds (a ++ b) = (a, b) := by
  induction a with
  | nil =>
    rcases hb with rfl | ⟨c, cs, rfl, hc⟩
    · rfl
    · simp [spanNot, hc]
  | cons c cs ih =>
    have hc : c ∉ ds := ha c (List.mem_cons_self c cs)
    have hcs : ∀ x ∈ cs, x ∉ ds := fun x hx => ha x (List.mem_cons_of_mem c hx)
    simp [spanNot, hc, ih hcs]

/-- Characterization of `splitScheme`: either a scheme-like piece before
the first colon is accepted and lowercased, or nothing is extracted, the
input being colon-free or its first-colon front not scheme-like. -/
theorem splitScheme_cases (l : List Char) :
    (∃ pre rest, splitFirst ':' l = (pre, some rest) ∧ schemeLike pre = true ∧
      splitScheme l = (pre.map lowerAscii, rest) ∧ l = pre ++ ':' :: rest) ∨
    (splitScheme l = ([], l) ∧
      ((splitFirst ':' l).2 = none ∨ schemeLike ((splitFirst ':' l).1) = false)) := by
  rcases hs : splitFirst ':' l with ⟨pre, o⟩
  cases o with
  | none =>
    right
    refine ⟨by simp [splitScheme, hs], Or.inl rfl⟩
  | some rest =>
    by_cases hl : schemeLike pre = true
    · left
      refine ⟨pre, rest, rfl, hl, by simp [splitScheme, hs, hl], ?_⟩
      have h2 := splitFirst_decomp_some (show (splitFirst ':' l).2 = some rest by rw [hs])
      rw [hs] at h2
      exact h2
    · have hl2 : schemeLike pre = false := by simpa using hl
      right
      refine ⟨by simp [splitScheme, hs, hl2], Or.inr hl2⟩

/-- `splitScheme` extracts nothing when every first-colon front is
rejected. -/
theorem splitScheme_of_rejected {l : List Char}
    (h : ∀ pre rest, splitFirst ':' l = (pre, some rest) → schemeLike pre = false) :
    splitScheme l = ([], l) := by
  rcases splitScheme_cases l with ⟨pre, rest, hs, hl, _, _⟩ | ⟨h1, _⟩
  · rw [h pre rest hs] at hl; cases hl
  · exact h1

/-- `splitScheme` accepts an explicitly placed well-formed scheme already
in lowercase. -/
theorem splitScheme_accepted {s : List Char} (rest : List Char)
    (hs : schemeLike s = true) (hlow : s.map lowerAscii = s) :
    splitScheme (s ++ ':' :: rest) = (s, rest) := by
  have hns : ':' ∉ s := schemeLike_not_mem_colon hs
  have h1 := splitFirst_append_sep rest hns
  simp [splitScheme, h1, hs, hlow]

/-- `splitScheme` of a list headed by a slash extracts nothing. -/
theorem splitScheme_slash (l : List Char) : splitScheme ('/' :: l) = ([], '/' :: l) := by
  apply splitScheme_of_rejected
  intro pre rest h
  have hstep : splitFirst ':' ('/' :: l) =
      ('/' :: (splitFirst ':' l).1, (splitFirst ':' l).2) := by simp [splitFirst]
  rw [hstep] at h
  have hpre : '/' :: (splitFirst ':' l).1 = pre := congrArg Prod.fst h
  rw [← hpre]
  exact schemeLike_cons_bad _ (by decide)

/-- Characterization of `splitNetloc`: the netloc branch on a `//`-headed
input, the identity otherwise. -/
theorem splitNetloc_cases (l : List Char) :
    (∃ rest, l = '/' :: '/' :: rest ∧ splitNetloc l = spanNot netlocDelims rest) ∨
    (splitNetloc l = ([], l) ∧ l.take 2 ≠ ['/', '/']) := by
  match l with
  | [] => right; exact ⟨rfl, by decide⟩
  | [c] => right; exact ⟨rfl, by simp⟩
  | c1 :: c2 :: rest =>
    by_cases h : c1 = '/' ∧ c2 = '/'
    · left
      exact ⟨rest, by rw [h.1, h.2], by simp [splitNetloc, h]⟩
    · right
      refine ⟨by simp [splitNetloc, h], ?_⟩
      intro hT
      simp at hT
      exact h hT

/-- `splitNetloc` is the identity when the input does not start with `//`. -/
theorem splitNetloc_of_ne {l : List Char} (h : l.take 2 ≠ ['/', '/']) :
    splitNetloc l = ([], l) := by
  rcases splitNetloc_cases l with ⟨rest, rfl, _⟩ | ⟨h1, _⟩
  · exact absurd (by simp) h
  · exact h1

/-- A list whose first two characters are `//` starts with a slash. -/
theorem take2_slash {p : List Char} (h : p.take 2 = ['/', '/']) : ∃ t, p = '/' :: t := by
  match p with
  | [] => simp at h
  | [a] => simp at h
  | a :: b :: t =>
    simp at h
    exact ⟨b :: t, by rw [h.1]⟩

/-- The bracket check passes on bracket-balanced netlocs. -/
theorem bracketBad_eq_false {n : List Char} (h : ('[' ∈ n) ↔ (']' ∈ n)) :
    bracketBad n = false := by
  by_cases h1 : '[' ∈ n
  · have h2 := h.mp h1
    simp [bracketBad, h1, h2]
  · have h2 : ']' ∉ n := fun hm => h1 (h.mpr hm)
    simp [bracketBad, h1, h2]

/-- A passing bracket check means the netloc is bracket-balanced. -/
theorem bracketBad_false_iff {n : List Char} (h : bracketBad n = false) :
    ('[' ∈ n) ↔ (']' ∈ n) := by
  by_cases h1 : '[' ∈ n <;> by_cases h2 : ']' ∈ n
  · exact iff_of_true h1 h2
  · simp [bracketBad, h1, h2] at h
  · simp [bracketBad, h1, h2] at h
  · exact iff_of_false h1 h2

/-- Structural properties of a successful `restSplit`: the netloc avoids
delimiters and is bracket-balanced, the path avoids `#` and `?`, every
component character comes from the input, and either the path is empty or
slash-headed (netloc branch) or the netloc is empty and the input is the
path followed by a `#`- or `?`-headed tail. -/
theorem restSplit_ok_props {u1 n p q f : List Char}
    (h : restSplit u1 = .ok (n, p, q, f)) :
    (∀ x ∈ n, x ∉ netlocDelims) ∧
    (('[' ∈ n) ↔ (']' ∈ n)) ∧
    '#' ∉ p ∧ '?' ∉ p ∧
    (∀ x, (x ∈ n ∨ x ∈ p ∨ x ∈ q ∨ x ∈ f) → x ∈ u1) ∧
    ((p = [] ∨ ∃ t, p = '/' :: t) ∨
      (n = [] ∧ ∃ t, u1 = p ++ t ∧
        (t = [] ∨ ∃ c cs, t = c :: cs ∧ (c = '#' ∨ c = '?')))) := by
  simp only [restSplit] at h
  cases hb : bracketBad (splitNetloc u1).1 with
  | true => rw [hb] at h; simp at h
  | false =>
    rw [hb] at h
    simp only [Bool.false_eq_true, if_false, Except.ok.injEq, Prod.mk.injEq] at h
    obtain ⟨hn, hp, hq, hf⟩ := h
    subst hn hp hq hf
    set u2 := (splitNetloc u1).2 with hu2
    set u3 := (splitFirst '#' u2).1 with hu3
    have hph : '#' ∉ (splitFirst '?' u3).1 := by
      intro hm
      exact splitFirst_fst_not_mem '#' u2 (mem_of_mem_splitFirst_fst hm)
    have hpq : '?' ∉ (splitFirst '?' u3).1 := splitFirst_fst_not_mem '?' u3
    have hmem_u3 : ∀ x ∈ u3, x ∈ u2 := fun x hx => mem_of_mem_splitFirst_fst hx
    have hmem_p : ∀ x ∈ (splitFirst '?' u3).1, x ∈ u2 :=
      fun x hx => hmem_u3 x (mem_of_mem_splitFirst_fst hx)
    have hmem_q : ∀ x ∈ (splitFirst '?' u3).2.getD [], x ∈ u2 := by
      intro x hx
      cases hq2 : (splitFirst '?' u3).2 with
      | none => rw [hq2] at hx; cases hx
      | some q0 =>
        rw [hq2] at hx
        exact hmem_u3 x (mem_of_mem_splitFirst_snd hq2 hx)
    have hmem_f : ∀ x ∈ (splitFirst '#' u2).2.getD [], x ∈ u2 := by
      intro x hx
      cases hf2 : (splitFirst '#' u2).2 with
      | none => rw [hf2] at hx; cases hx
      | some f0 =>
        rw [hf2] at hx
        exact mem_of_mem_splitFirst_snd hf2 hx
    have hdec_u3 : u3 = (splitFirst '?' u3).1 ++
        ((splitFirst '?' u3).2.elim [] (fun q0 => '?' :: q0)) := by
      cases hq2 : (splitFirst '?' u3).2 with
      | none => simp [(splitFirst_decomp_none hq2).1]
      | some q0 => simpa using splitFirst_decomp_some hq2
    have hdec_u2 : u2 = u3 ++
        ((splitFirst '#' u2).2.elim [] (fun f0 => '#' :: f0)) := by
      cases hf2 : (splitFirst '#' u2).2 with
      | none => simp [hu3, (splitFirst_decomp_none hf2).1]
      | some f0 => simpa [hu3] using splitFirst_decomp_some hf2
    rcases splitNetloc_cases u1 with ⟨rest, hrest, hsn⟩ | ⟨hsn, hne⟩
    · -- netloc branch taken
      have hn1 : (splitNetloc u1).1 = (spanNot netlocDelims rest).1 := by rw [hsn]
      have hn2 : u2 = (spanNot netlocDelims rest).2 := by rw [hu2, hsn]
      have hmem_rest : ∀ x ∈ u2, x ∈ u1 := by
        intro x hx
        rw [hn2] at hx
        have : x ∈ rest := by
          rw [← spanNot_decomp netlocDelims rest]
          exact List.mem_append_right _ hx
        rw [hrest]
        exact List.mem_cons_of_mem _ (List.mem_cons_of_mem _ this)
      have hmem_n : ∀ x ∈ (splitNetloc u1).1, x ∈ u1 := by
        intro x hx
        rw [hn1] at hx
        have : x ∈ rest := by
          rw [← spanNot_decomp netlocDelims rest]
          exact List.mem_append_left _ hx
        rw [hrest]
        exact List.mem_cons_of_mem _ (List.mem_cons_of_mem _ this)
      refine ⟨?_, bracketBad_false_iff hb, hph, hpq, ?_, ?_⟩
      · intro x hx
        rw [hn1] at hx
        exact spanNot_fst_not_mem _ _ x hx
      · intro x hx
        rcases hx with hx | hx | hx | hx
        · exact hmem_n x hx
        · exact hmem_rest x (hmem_p x hx)
        · exact hmem_rest x (hmem_q x hx)
        · exact hmem_rest x (hmem_f x hx)
      · left
        cases hp0 : (splitFirst '?' u3).1 with
        | nil => exact Or.inl rfl
        | cons d ds =>
          right
          obtain ⟨t3, ht3⟩ := splitFirst_fst_cons hp0
          obtain ⟨t2, ht2⟩ := splitFirst_fst_cons
            (show (splitFirst '#' u2).1 = d :: t3 by rw [← hu3, ht3])
          have hd : d ∈ netlocDelims :=
            spanNot_snd_head
              (show (spanNot netlocDelims rest).2 = d :: t2 by rw [← hn2]; exact ht2)
          have hdp : d ∈ (splitFirst '?' u3).1 := by
            rw [hp0]; exact List.mem_cons_self _ _
          have : d = '/' ∨ d = '?' ∨ d = '#' := by simpa [netlocDelims] using hd
          rcases this with rfl | rfl | rfl
          · exact ⟨ds, rfl⟩
          · exact absurd hdp hpq
          · exact absurd hdp hph
    · -- netloc branch not taken
      have hn1 : (splitNetloc u1).1 = [] := by rw [hsn]
      have hu2u1 : u2 = u1 := by rw [hu2, hsn]
      refine ⟨?_, bracketBad_false_iff hb, hph, hpq, ?_, ?_⟩
      · intro x hx
        rw [hn1] at hx
        cases hx
      · intro x hx
        rw [← hu2u1]
        rcases hx with hx | hx | hx | hx
        · rw [hn1] at hx; cases hx
        · exact hmem_p x hx
        · exact hmem_q x hx
        · exact hmem_f x hx
      · right
        refine ⟨hn1, ?_⟩
        have hmain : u1 = (splitFirst '?' u3).1 ++
            (((splitFirst '?' u3).2.elim [] (fun q0 => '?' :: q0)) ++
              ((splitFirst '#' u2).2.elim [] (fun f0 => '#' :: f0))) := by
          conv_lhs => rw [← hu2u1, hdec_u2, hdec_u3]
          rw [List.append_assoc]
        refine ⟨_, hmain, ?_⟩
        cases hq2 : (splitFirst '?' u3).2 with
        | some q0 =>
          right
          refine ⟨'?', q0 ++ ((splitFirst '#' u2).2.elim [] (fun f0 => '#' :: f0)),
            ?_, Or.inr rfl⟩
          simp
        | none =>
          cases hf2 : (splitFirst '#' u2).2 with
          | none => left; simp
          | some f0 =>
            right
            refine ⟨'#', f0, ?_, Or.inl rfl⟩
            simp

/-- Cleanliness of characters is preserved by append. -/
theorem clean_append {a b : List Char} (ha : ∀ x ∈ a, isUnsafeChar x = false)
    (hb : ∀ x ∈ b, isUnsafeChar x = false) : ∀ x ∈ a ++ b, isUnsafeChar x = false := by
  intro x hx
  rcases List.mem_append.mp hx with h | h
  · exact ha x h
  · exact hb x h

/-- Cleanliness of characters is preserved by cons. -/
theorem clean_cons {c : Char} {b : List Char} (hc : isUnsafeChar c = false)
    (hb : ∀ x ∈ b, isUnsafeChar x = false) : ∀ x ∈ c :: b, isUnsafeChar x = false := by
  intro x hx
  rcases List.mem_cons.mp hx with rfl | h
  · exact hc
  · exact hb x h

/-- The fragment suffix of a clean fragment is clean. -/
theorem clean_fragPart {f : List Char} (hf : ∀ x ∈ f, isUnsafeChar x = false) :
    ∀ x ∈ fragPart f, isUnsafeChar x = false := by
  unfold fragPart
  by_cases h : f = []
  · simp [h]
  · rw [if_pos h]
    exact clean_cons (by decide) hf

/-- The unsafe-byte filter is the identity on clean strings. -/
theorem filter_clean_id {l : List Char} (h : ∀ x ∈ l, isUnsafeChar x = false) :
    l.filter (fun c => !(isUnsafeChar c)) = l := by
  rw [List.filter_eq_self]
  intro a ha
  simp [h a ha]

/-- Every successful result of `urlsplit` satisfies the invariants. -/
theorem urlsplit_good {d : List Char} {r : SplitResult} (h : urlsplit d = .ok r) :
    GoodSplit r := by
  simp only [urlsplit] at h
  set url := d.filter (fun c => !(isUnsafeChar c)) with hurl
  have hclean : ∀ x ∈ url, isUnsafeChar x = false := by
    intro x hx
    rw [hurl] at hx
    simpa using (List.mem_filter.mp hx).2
  cases hrs : restSplit (splitScheme url).2 with
  | error e => rw [hrs] at h; simp at h
  | ok tup =>
    obtain ⟨n, p, q, f⟩ := tup
    rw [hrs] at h
    simp only [Except.ok.injEq] at h
    subst h
    obtain ⟨hnd, hnb, hph, hpq, hmem, hdisj⟩ := restSplit_ok_props hrs
    have hmem_url : ∀ x, (x ∈ n ∨ x ∈ p ∨ x ∈ q ∨ x ∈ f) → x ∈ url := by
      intro x hx
      have hx2 := hmem x hx
      rcases splitScheme_cases url with ⟨pre, rest, hsf, hsl, heq, hdec⟩ | ⟨heq, hrej⟩
      · have hs2 : (splitScheme url).2 = rest := by rw [heq]
        rw [hs2] at hx2
        rw [hdec]
        exact List.mem_append_right _ (List.mem_cons_of_mem _ hx2)
      · have hs2 : (splitScheme url).2 = url := by rw [heq]
        rw [hs2] at hx2
        exact hx2
    refine ⟨?_, ?_, hnd, ?_, hnb, hph, hpq, ?_, ?_, ?_, ?_⟩
    · -- scheme_ok
      rcases splitScheme_cases url with ⟨pre, rest, hsf, hsl, heq, hdec⟩ | ⟨heq, hrej⟩
      · have hs1 : (splitScheme url).1 = pre.map lowerAscii := by rw [heq]
        right
        show schemeLike (splitScheme url).1 = true
        rw [hs1]
        exact schemeLike_map_lower hsl
      · left
        show (splitScheme url).1 = []
        rw [heq]
    · -- scheme_lower
      rcases splitScheme_cases url with ⟨pre, rest, hsf, hsl, heq, hdec⟩ | ⟨heq, hrej⟩
      · show ((splitScheme url).1).map lowerAscii = (splitScheme url).1
        have hs1 : (splitScheme url).1 = pre.map lowerAscii := by rw [heq]
        rw [hs1]
        exact map_lower_idem pre
      · show ((splitScheme url).1).map lowerAscii = (splitScheme url).1
        have hs1 : (splitScheme url).1 = [] := by rw [heq]
        rw [hs1]
        rfl
    · -- netloc_clean
      exact fun x hx => hclean x (hmem_url x (Or.inl hx))
    · -- path_clean
      exact fun x hx => hclean x (hmem_url x (Or.inr (Or.inl hx)))
    · -- path_slash
      intro hn0
      rcases hdisj with hL | ⟨hn00, _⟩
      · exact hL
      · exact absurd hn00 hn0
    · -- path_colon
      intro hsch hcp
      rcases hdisj with hL | ⟨hn00, t, hdect, hshape⟩
      · rcases hL with hpe | ⟨t, hpe⟩
        · rw [hpe] at hcp; cases hcp
        · rw [hpe]
          have hstep : splitFirst ':' ('/' :: t) =
              ('/' :: (splitFirst ':' t).1, (splitFirst ':' t).2) := by simp [splitFirst]
          rw [hstep]
          exact schemeLike_cons_bad _ (by decide)
      · -- the netloc branch was not taken and the input decomposes
        rcases splitScheme_cases url with ⟨pre, rest, hsf, hsl, heq, hdec⟩ | ⟨heq, hrej⟩
        · -- a scheme was extracted, contradicting emptiness
          exfalso
          have hs1 : (splitScheme url).1 = pre.map lowerAscii := by rw [heq]
          have hsch2 : (splitScheme url).1 = [] := hsch
          rw [hs1] at hsch2
          cases hpre : pre with
          | nil => rw [hpre] at hsl; simp [schemeLike] at hsl
          | cons a as => rw [hpre] at hsch2; simp at hsch2
        · have hs2 : (splitScheme url).2 = url := by rw [heq]
          have hurl_pt : url = p ++ t := by rw [← hs2]; exact hdect
          obtain ⟨hfst, r0, hsnd⟩ := splitFirst_append_mem t hcp
          rcases hrej with hnone | hfalse
          · rw [hurl_pt, hsnd] at hnone
            cases hnone
          · rw [hurl_pt, hfst] at hfalse
            exact hfalse
    · -- frag_clean
      exact fun x hx => hclean x (hmem_url x (Or.inr (Or.inr (Or.inr hx))))

/-- Reconstruction, netloc branch: splitting `//` + netloc + path +
fragment suffix recovers the components with an empty query. -/
theorem restSplit_reconstruct_netloc {n p f : List Char}
    (hn : ∀ x ∈ n, x ∉ netlocDelims) (hbr : ('[' ∈ n) ↔ (']' ∈ n))
    (hp : p = [] ∨ ∃ t, p = '/' :: t)
    (hph : '#' ∉ p) (hpq : '?' ∉ p) :
    restSplit ('/' :: '/' :: (n ++ (p ++ fragPart f))) = .ok (n, p, [], f) := by
  have hpf : p ++ fragPart f = [] ∨
      ∃ c cs, p ++ fragPart f = c :: cs ∧ c ∈ netlocDelims := by
    rcases hp with rfl | ⟨t, rfl⟩
    · rw [List.nil_append]
      unfold fragPart
      by_cases hf : f = []
      · left; simp [hf]
      · right; exact ⟨'#', f, by rw [if_pos hf], by decide⟩
    · right; exact ⟨'/', t ++ fragPart f, by simp, by decide⟩
  have hsn : splitNetloc ('/' :: '/' :: (n ++ (p ++ fragPart f))) =
      (n, p ++ fragPart f) := by
    have h0 : splitNetloc ('/' :: '/' :: (n ++ (p ++ fragPart f))) =
        spanNot netlocDelims (n ++ (p ++ fragPart f)) := by simp [splitNetloc]
    rw [h0]
    exact spanNot_append hn hpf
  simp only [restSplit, hsn, bracketBad_eq_false hbr]
  by_cases hf : f = []
  · subst hf
    have h3 : splitFirst '#' (p ++ fragPart []) = (p, none) := by
      rw [show fragPart ([] : List Char) = [] from rfl, List.append_nil]
      exact splitFirst_of_not_mem hph
    have h4 : splitFirst '?' p = (p, none) := splitFirst_of_not_mem hpq
    simp [h3, h4]
  · have h3 : splitFirst '#' (p ++ fragPart f) = (p, some f) := by
      rw [show fragPart f = '#' :: f by unfold fragPart; rw [if_pos hf]]
      exact splitFirst_append_sep f hph
    have h4 : splitFirst '?' p = (p, none) := splitFirst_of_not_mem hpq
    simp [h3, h4]

/-- Reconstruction, plain branch: splitting path + fragment suffix not
starting with `//` recovers the components with empty netloc and query. -/
theorem restSplit_reconstruct_plain {p f : List Char}
    (h2 : (p ++ fragPart f).take 2 ≠ ['/', '/'])
    (hph : '#' ∉ p) (hpq : '?' ∉ p) :
    restSplit (p ++ fragPart f) = .ok ([], p, [], f) := by
  have hsn := splitNetloc_of_ne h2
  simp only [restSplit, hsn, show bracketBad ([] : List Char) = false from rfl]
  by_cases hf : f = []
  · subst hf
    have h3 : splitFirst '#' (p ++ fragPart []) = (p, none) := by
      rw [show fragPart ([] : List Char) = [] from rfl, List.append_nil]
      exact splitFirst_of_not_mem hph
    have h4 : splitFirst '?' p = (p, none) := splitFirst_of_not_mem hpq
    simp [h3, h4]
  · have h3 : splitFirst '#' (p ++ fragPart f) = (p, some f) := by
      rw [show fragPart f = '#' :: f by unfold fragPart; rw [if_pos hf]]
      exact splitFirst_append_sep f hph
    have h4 : splitFirst '?' p = (p, none) := splitFirst_of_not_mem hpq
    simp [h3, h4]

/-- A path with no `//` start keeps that property after the fragment
suffix is appended. -/
theorem take2_append_fragPart {p f : List Char} (h : p.take 2 ≠ ['/', '/']) :
    (p ++ fragPart f).take 2 ≠ ['/', '/'] := by
  match p with
  | [] =>
    by_cases hf : f = []
    · subst hf; simp [fragPart]
    · rw [List.nil_append, show fragPart f = '#' :: f by unfold fragPart; rw [if_pos hf]]
      intro hT
      simp [List.take] at hT
  | [a] =>
    by_cases hf : f = []
    · subst hf; simp [fragPart]
    · rw [show fragPart f = '#' :: f by unfold fragPart; rw [if_pos hf]]
      intro hT
      simp at hT
  | a :: b :: t =>
    intro hT
    exact h (by simpa using hT)

/-- Scheme rejection on a reconstructed schemeless path plus fragment
suffix: no scheme is extracted again. -/
theorem splitScheme_path_fragPart {p f : List Char}
    (hcol : ':' ∈ p → schemeLike ((splitFirst ':' p).1) = false) :
    splitScheme (p ++ fragPart f) = ([], p ++ fragPart f) := by
  apply splitScheme_of_rejected
  intro pre rest hsr
  by_cases hc : ':' ∈ p
  · obtain ⟨h1, r0, h2⟩ := splitFirst_append_mem (fragPart f) hc
    have hpre : pre = (splitFirst ':' p).1 := by
      have h3 := congrArg Prod.fst hsr
      rw [h1] at h3
      exact h3.symm
    rw [hpre]
    exact hcol hc
  · have hstep := splitFirst_append_not_mem (fragPart f) hc
    rw [hstep] at hsr
    have hpre : p ++ (splitFirst ':' (fragPart f)).1 = pre := congrArg Prod.fst hsr
    have hsnd : (splitFirst ':' (fragPart f)).2 = some rest := congrArg Prod.snd hsr
    by_cases hf : f = []
    · rw [hf] at hsnd
      simp [fragPart, splitFirst] at hsnd
    · rw [show fragPart f = '#' :: f by unfold fragPart; rw [if_pos hf]] at hpre
      have hsh : splitFirst ':' ('#' :: f) =
          ('#' :: (splitFirst ':' f).1, (splitFirst ':' f).2) := by simp [splitFirst]
      rw [hsh] at hpre
      rw [← hpre]
      exact schemeLike_false_of_mem
        (List.mem_append_right _ (List.mem_cons_self _ _)) (by decide) (by decide)

/-- `urlunsplit` with an empty query, rearranged into a scheme part
followed by the base and the fragment suffix. -/
theorem urlunsplit_no_query (s n p f : List Char) :
    urlunsplit s n p [] f =
      (if s = [] then
        (if n ≠ [] ∨ p.take 2 = ['/', '/'] then
          '/' :: '/' :: (n ++ (if p ≠ [] ∧ p.head? ≠ some '/' then '/' :: p else p))
         else p) ++ fragPart f
       else
        s ++ ':' :: ((if n ≠ [] ∨ p.take 2 = ['/', '/'] then
          '/' :: '/' :: (n ++ (if p ≠ [] ∧ p.head? ≠ some '/' then '/' :: p else p))
         else p) ++ fragPart f)) := by
  unfold urlunsplit fragPart
  by_cases hs : s = [] <;> by_cases hf : f = [] <;>
    simp [hs, hf, List.append_assoc]

/-- Assembly of `urlsplit` from clean input, a scheme split and the rest. -/
theorem urlsplit_of_parts {S sc rest n p q f : List Char}
    (hclean : ∀ x ∈ S, isUnsafeChar x = false)
    (hsch : splitScheme S = (sc, rest))
    (hrest : restSplit rest = .ok (n, p, q, f)) :
    urlsplit S = .ok ⟨sc, n, p, q, f⟩ := by
  simp only [urlsplit]
  rw [filter_clean_id hclean]
  simp [hsch, hrest]

/-- Round trip: re-splitting the reconstruction of a good split, with the
query dropped, recovers scheme, netloc, path and fragment exactly and an
empty query. -/
theorem urlsplit_urlunsplit {r : SplitResult} (hG : GoodSplit r) :
    urlsplit (urlunsplit r.scheme r.netloc r.path [] r.fragment) =
      .ok ⟨r.scheme, r.netloc, r.path, [], r.fragment⟩ := by
  obtain ⟨s, n, p, q0, f⟩ := r
  obtain ⟨hso, hsl, hnd, hnc, hnb, hph, hpq, hpc, hps, hcol, hfc⟩ := hG
  have Hso : s = [] ∨ schemeLike s = true := hso
  have Hsl : s.map lowerAscii = s := hsl
  have Hnd : ∀ x ∈ n, x ∉ netlocDelims := hnd
  have Hnc : ∀ x ∈ n, isUnsafeChar x = false := hnc
  have Hnb : ('[' ∈ n) ↔ (']' ∈ n) := hnb
  have Hph : '#' ∉ p := hph
  have Hpq : '?' ∉ p := hpq
  have Hpc : ∀ x ∈ p, isUnsafeChar x = false := hpc
  have Hps : n ≠ [] → p = [] ∨ ∃ t, p = '/' :: t := hps
  have Hcol : s = [] → ':' ∈ p → schemeLike ((splitFirst ':' p).1) = false := hcol
  have Hfc : ∀ x ∈ f, isUnsafeChar x = false := hfc
  show urlsplit (urlunsplit s n p [] f) = .ok ⟨s, n, p, [], f⟩
  rw [urlunsplit_no_query]
  by_cases hbase : n ≠ [] ∨ p.take 2 = ['/', '/']
  · have hp' : (if p ≠ [] ∧ p.head? ≠ some '/' then '/' :: p else p) = p := by
      rcases hbase with hn | ht
      · rcases Hps hn with rfl | ⟨t, rfl⟩
        · rfl
        · simp
      · obtain ⟨t, rfl⟩ := take2_slash ht
        simp
    have hslp : p = [] ∨ ∃ t, p = '/' :: t := by
      rcases hbase with hn | ht
      · exact Hps hn
      · exact Or.inr (take2_slash ht)
    rw [if_pos hbase, hp']
    have hassoc : ('/' :: '/' :: (n ++ p)) ++ fragPart f =
        '/' :: '/' :: (n ++ (p ++ fragPart f)) := by
      simp [List.append_assoc]
    have hrest : restSplit ('/' :: '/' :: (n ++ (p ++ fragPart f))) = .ok (n, p, [], f) :=
      restSplit_reconstruct_netloc Hnd Hnb hslp Hph Hpq
    have hcleanBody : ∀ x ∈ '/' :: '/' :: (n ++ (p ++ fragPart f)),
        isUnsafeChar x = false :=
      clean_cons (by decide) (clean_cons (by decide)
        (clean_append Hnc (clean_append Hpc (clean_fragPart Hfc))))
    by_cases hs0 : s = []
    · rw [if_pos hs0, hassoc, hs0]
      exact urlsplit_of_parts hcleanBody (splitScheme_slash _) hrest
    · rw [if_neg hs0, hassoc]
      have hschl : schemeLike s = true := by
        rcases Hso with rfl | hv
        · exact absurd rfl hs0
        · exact hv
      exact urlsplit_of_parts
        (clean_append (schemeLike_clean hschl) (clean_cons (by decide) hcleanBody))
        (splitScheme_accepted _ hschl Hsl) hrest
  · have hparts := hbase
    push_neg at hparts
    obtain ⟨hn0, hp2⟩ := hparts
    subst hn0
    rw [if_neg hbase]
    have hrest : restSplit (p ++ fragPart f) = .ok ([], p, [], f) :=
      restSplit_reconstruct_plain (take2_append_fragPart hp2) Hph Hpq
    have hcleanBody : ∀ x ∈ p ++ fragPart f, isUnsafeChar x = false :=
      clean_append Hpc (clean_fragPart Hfc)
    by_cases hs0 : s = []
    · rw [if_pos hs0, hs0]
      exact urlsplit_of_parts hcleanBody
        (splitScheme_path_fragPart (fun hc => Hcol hs0 hc)) hrest
    · rw [if_neg hs0]
      have hschl : schemeLike s = true := by
        rcases Hso with rfl | hv
        · exact absurd rfl hs0
        · exact hv
      exact urlsplit_of_parts
        (clean_append (schemeLike_clean hschl) (clean_cons (by decide) hcleanBody))
        (splitScheme_accepted _ hschl Hsl) hrest

/-- C1 counterexample: with the supplied connection string `"?a"` (whose
sanitized form is the empty string) the built vector does emit the `-h`
field token, so a supplied DSN does not always suppress field tokens. -/
theorem build_dsn_query_only_cex :
    build_psql_command c1Args = .ok ["psql", "-X", "-h", "localhost", "-c", "SELECT 1"] ∧
    "-h" ∈ ["psql", "-X", "-h", "localhost", "-c", "SELECT 1"] :=
  ⟨rfl, by decide⟩

/-- C1 (amended): whenever the supplied connection string sanitizes to a
nonempty string, the built vector is `psql -X`, the single sanitized
connection token, the optional stop-on-error marker and the
command-or-file tokens — no `-h`/`-p`/`-U`/`-d` tokens appear, whatever
host, port, username and database are supplied. -/
theorem build_with_truthy_sanitized_dsn (args : Args) (s : String) (d : List Char)
    (hdsn : args.dsn = some s)
    (hs : sanitize_dsn (some s.data) = .ok (some d)) (hne : d ≠ []) :
    build_psql_command args =
      .ok (["psql", "-X", String.mk d] ++
        (if args.on_error_stop then ["-v", "ON_ERROR_STOP=1"] else []) ++
        cmdFileArgs args) := by
  have ht : truthyL (some d) = true := by
    cases d with
    | nil => exact absurd rfl hne
    | cons a as => rfl
  simp only [build_psql_command, hdsn, Option.map_some', hs]
  simp [connArgs, ht]

/-- C1 witness at the specification's example DSN. -/
theorem build_with_truthy_sanitized_dsn_witness :
    build_psql_command c1SpecArgs =
      .ok ["psql", "-X", "postgres://user@host/db", "-c", "SELECT 1"] := by
  have h := build_with_truthy_sanitized_dsn c1SpecArgs
    "postgres://user@host/db?sslmode=require" "postgres://user@host/db".data
    rfl (by rfl) (by decide)
  simpa [cmdFileArgs, truthyS] using h

/-- C2: for every connection string that urlsplit parses with a nonempty
query component, the sanitizer returns a string whose parsed query is
empty and whose parsed scheme, authority, path and fragment are identical
to those of the input. -/
theorem sanitize_dsn_strips_query_preserving_components (d : List Char) (r : SplitResult)
    (hp : urlsplit d = .ok r) (hq : r.query ≠ []) :
    ∃ out, sanitize_dsn (some d) = .ok (some out) ∧
      urlsplit out = .ok ⟨r.scheme, r.netloc, r.path, [], r.fragment⟩ := by
  have hd0 : d ≠ [] := by
    intro hE
    rw [hE, show urlsplit ([] : List Char) = .ok ⟨[], [], [], [], []⟩ from rfl] at hp
    simp only [Except.ok.injEq] at hp
    rw [← hp] at hq
    exact hq rfl
  refine ⟨urlunsplit r.scheme r.netloc r.path [] r.fragment, ?_, ?_⟩
  · have hie : d.isEmpty = false := by
      cases d with
      | nil => exact absurd rfl hd0
      | cons a as => rfl
    have hqe : r.query.isEmpty = false := by
      cases hq2 : r.query with
      | nil => exact absurd hq2 hq
      | cons a as => rfl
    simp [sanitize_dsn, hie, hp, hqe]
  · exact urlsplit_urlunsplit (urlsplit_good hp)

/-- C2 witness at the specification's example DSN. -/
theorem sanitize_dsn_strips_query_preserving_components_witness :
    ∃ out, sanitize_dsn (some "postgres://user@host/db?sslmode=require".data) =
        .ok (some out) ∧
      urlsplit out = .ok ⟨"postgres".data, "user@host".data, "/db".data, [], []⟩ :=
  sanitize_dsn_strips_query_preserving_components _
    ⟨"postgres".data, "user@host".data, "/db".data, "sslmode=require".data, []⟩
    (by rfl) (by decide)

/-- C3 counterexample: the string `"//[x"` contains no `?` at all — it has
no query component under any reading — yet the sanitizer does not return
it unchanged: urlsplit raises `ValueError` on its mismatched bracket. -/
theorem sanitize_dsn_bracket_valueerror_cex :
    '?' ∉ "//[x".data ∧ sanitize_dsn (some "//[x".data) = .error () :=
  ⟨by decide, rfl⟩

/-- C3 (amended): the sanitizer returns `None` and the empty string
unchanged, and is the identity on every connection string that urlsplit
parses successfully with an empty query component; strings urlsplit
rejects (mismatched authority bracket) raise instead. -/
theorem sanitize_dsn_identity_no_query :
    sanitize_dsn none = .ok none ∧
    sanitize_dsn (some []) = .ok (some []) ∧
    ∀ d r, urlsplit d = .ok r → r.query = [] → sanitize_dsn (some d) = .ok (some d) := by
  refine ⟨rfl, rfl, ?_⟩
  intro d r hp hq
  by_cases hd : d = []
  · subst hd; rfl
  · have hie : d.isEmpty = false := by
      cases d with
      | nil => exact absurd rfl hd
      | cons a as => rfl
    simp [sanitize_dsn, hie, hp, hq]

/-- C3 witness at a query-free DSN. -/
theorem sanitize_dsn_identity_no_query_witness :
    sanitize_dsn (some "postgres://h/db".data) = .ok (some "postgres://h/db".data) :=
  sanitize_dsn_identity_no_query.2.2 _
    ⟨"postgres".data, "h".data, "/db".data, [], []⟩ (by rfl) rfl

/-- C4 counterexample: port 0 is supplied but, being falsy in Python, emits
no `-p` pair at all. -/
theorem build_port_zero_cex :
    build_psql_command c4Args = .ok ["psql", "-X", "-c", "x"] ∧
    "-p" ∉ ["psql", "-X", "-c", "x"] :=
  ⟨rfl, by decide⟩

/-- C4 (amended): with no connection string, each truthy supplied field
(nonempty strings, nonzero port) emits exactly its flag-plus-value pair in
the fixed order host, port, username, database; absent or falsy fields
emit nothing. -/
theorem build_fields_when_no_dsn (args : Args) (h : args.dsn = none) :
    build_psql_command args =
      .ok (["psql", "-X"] ++
        (if truthyS args.host then ["-h", args.host.getD ""] else []) ++
        (if truthyI args.port then ["-p", toString (args.port.getD 0)] else []) ++
        (if truthyS args.username then ["-U", args.username.getD ""] else []) ++
        (if truthyS args.database then ["-d", args.database.getD ""] else []) ++
        (if args.on_error_stop then ["-v", "ON_ERROR_STOP=1"] else []) ++
        cmdFileArgs args) := by
  simp only [build_psql_command, h, Option.map_none',
    show sanitize_dsn none = .ok none from rfl]
  simp [connArgs, truthyL, List.append_assoc]

/-- C4 witness at the specification's example: the four pairs appear
consecutively in order. -/
theorem build_fields_when_no_dsn_witness :
    build_psql_command c4SpecArgs =
      .ok ["psql", "-X", "-h", "localhost", "-p", "5433", "-U", "alice",
           "-d", "mydb", "-c", "q"] := by
  have h := build_fields_when_no_dsn c4SpecArgs rfl
  simpa [truthyS, truthyI, cmdFileArgs] using h

/-- C5: the launched vector always decomposes as `psql -X`, connection
tokens, the stop-on-error marker when requested, the command-or-file
tokens, and the pager-disable tokens appended last. -/
theorem psql_flag_order (args : Args) (v : List String)
    (h : full_command args = .ok v) :
    ∃ dsnO, sanitize_dsn (args.dsn.map String.data) = .ok dsnO ∧
      v = ["psql", "-X"] ++ connArgs args dsnO ++
          (if args.on_error_stop then ["-v", "ON_ERROR_STOP=1"] else []) ++
          cmdFileArgs args ++
          (if args.no_pager then ["-P", "pager=off"] else []) := by
  cases hs : sanitize_dsn (args.dsn.map String.data) with
  | error e => simp [full_command, build_psql_command, hs] at h
  | ok dsnO =>
    simp only [full_command, build_psql_command, hs, Except.ok.injEq] at h
    refine ⟨dsnO, rfl, ?_⟩
    rw [← h]

/-- C5 witness at the specification's example: the stop-on-error marker
precedes the `-c` tokens. -/
theorem psql_flag_order_witness :
    ∃ dsnO, sanitize_dsn ((c5Args.dsn).map String.data) = .ok dsnO ∧
      ["psql", "-X", "-v", "ON_ERROR_STOP=1", "-c", "SELECT 1"] =
      ["psql", "-X"] ++ connArgs c5Args dsnO ++
        (if c5Args.on_error_stop then ["-v", "ON_ERROR_STOP=1"] else []) ++
        cmdFileArgs c5Args ++
        (if c5Args.no_pager then ["-P", "pager=off"] else []) :=
  psql_flag_order c5Args ["psql", "-X", "-v", "ON_ERROR_STOP=1", "-c", "SELECT 1"] rfl

/-- C6: with neither a truthy command nor a truthy file, `main` reports the
usage error with a nonzero exit and no child process is launched. -/
theorem usage_error_no_launch (args : Args) (child : ChildOutcome)
    (hc : truthyS args.command = false) (hf : truthyS args.file = false) :
    ∃ res, main_run args child = .ok res ∧ res.exit ≠ 0 ∧ res.launched = false ∧
      res.stderrLines = [usage_error_message] := by
  refine ⟨⟨2, false, false, false, [usage_error_message]⟩, ?_, by decide, rfl, rfl⟩
  simp [main_run, hc, hf]

/-- C6 witness with both command and file absent. -/
theorem usage_error_no_launch_witness :
    ∃ res, main_run c6Args (.exited 0) = .ok res ∧ res.exit ≠ 0 ∧
      res.launched = false ∧ res.stderrLines = [usage_error_message] :=
  usage_error_no_launch c6Args (.exited 0) rfl rfl

/-- C7: when the child does not exit within the timeout, the supervisor
kills it, returns the sentinel 124, and writes a diagnostic naming the
configured timeout value to stderr. -/
theorem timeout_kills_and_returns_124 (args : Args) (v : List String)
    (hcf : truthyS args.command = true ∨ truthyS args.file = true)
    (hb : full_command args = .ok v) :
    ∃ res, main_run args .timedOut = .ok res ∧ res.exit = 124 ∧ res.killed = true ∧
      res.stderrLines =
        ["psql command timed out after " ++ toString args.timeout ++ " seconds"] := by
  have hcond : (!truthyS args.command && !truthyS args.file) = false := by
    rcases hcf with h | h <;> simp [h]
  refine ⟨⟨124, true, true, true, [timeout_message args.timeout]⟩, ?_, rfl, rfl, rfl⟩
  simp [main_run, hcond, hb]

/-- C7 witness with a one-second timeout. -/
theorem timeout_kills_and_returns_124_witness :
    ∃ res, main_run c7Args .timedOut = .ok res ∧ res.exit = 124 ∧ res.killed = true ∧
      res.stderrLines =
        ["psql command timed out after " ++ toString c7Args.timeout ++ " seconds"] :=
  timeout_kills_and_returns_124 c7Args ["psql", "-X", "-c", "SELECT 1"]
    (Or.inl rfl) rfl

/-- C8: the supervisor's exit code follows exactly the case split: 127
without any wait when the executable is missing, the child's own code when
it exits in time, 124 on timeout. -/
theorem supervisor_exit_code_cases (args : Args) (v : List String)
    (hcf : truthyS args.command = true ∨ truthyS args.file = true)
    (hb : full_command args = .ok v) :
    (∃ res, main_run args .notFound = .ok res ∧ res.exit = 127 ∧ res.waited = false ∧
      res.launched = false) ∧
    (∀ c : Int, ∃ res, main_run args (.exited c) = .ok res ∧ res.exit = c) ∧
    (∃ res, main_run args .timedOut = .ok res ∧ res.exit = 124) := by
  have hcond : (!truthyS args.command && !truthyS args.file) = false := by
    rcases hcf with h | h <;> simp [h]
  refine ⟨⟨⟨127, false, false, false, [not_found_message]⟩, ?_, rfl, rfl, rfl⟩,
    ?_, ⟨⟨124, true, true, true, [timeout_message args.timeout]⟩, ?_, rfl⟩⟩
  · simp [main_run, hcond, hb]
  · intro c
    exact ⟨⟨c, true, true, false, []⟩, by simp [main_run, hcond, hb], rfl⟩
  · simp [main_run, hcond, hb]

/-- C8 witness: a child exiting with code 3 has its code passed through. -/
theorem supervisor_exit_code_cases_witness :
    ∃ res, main_run c8Args (.exited 3) = .ok res ∧ res.exit = 3 :=
  (supervisor_exit_code_cases c8Args ["psql", "-X", "-f", "analyze.sql"]
    (Or.inr rfl) rfl).2.1 3

/-- C9 counterexample: a supplied empty password is falsy, so PGPASSWORD is
not overridden with the supplied value. -/
theorem child_env_empty_password_cex :
    child_env c9Args c9Env "PGPASSWORD" = some "old" ∧
    child_env c9Args c9Env "PGPASSWORD" ≠ some "" :=
  ⟨rfl, by decide⟩

/-- C9 (amended): a nonempty supplied password sets exactly the single
entry PGPASSWORD, leaving every other entry unchanged; an absent or empty
password leaves the environment identical. -/
theorem child_env_password_spec (args : Args) (environ : String → Option String) :
    (∀ pw, args.password = some pw → pw ≠ "" →
      child_env args environ "PGPASSWORD" = some pw ∧
      ∀ k, k ≠ "PGPASSWORD" → child_env args environ k = environ k) ∧
    ((args.password = none ∨ args.password = some "") →
      child_env args environ = environ) := by
  constructor
  · intro pw hpw hne
    have hie : pw.isEmpty = false := by
      cases hp : pw.isEmpty
      · rfl
      · exact absurd ((String.isEmpty_iff pw).mp hp) hne
    simp only [child_env, hpw, hie]
    exact ⟨by simp, fun k hk => by simp [hk]⟩
  · intro hpw
    rcases hpw with hpw | hpw
    · simp [child_env, hpw]
    · simp [child_env, hpw, show ("" : String).isEmpty = true from rfl]

/-- C9 witness: a nonempty password sets PGPASSWORD, HOME is untouched. -/
theorem child_env_password_spec_witness :
    child_env c9SpecArgs c9SpecEnv "PGPASSWORD" = some "secret" ∧
    child_env c9SpecArgs c9SpecEnv "HOME" = some "/home/u" := by
  have h := (child_env_password_spec c9SpecArgs c9SpecEnv).1 "secret" rfl (by decide)
  exact ⟨h.1, (h.2 "HOME" (by decide)).trans rfl⟩

/-- C10: every successfully built and launched vector starts with the two
fixed tokens `psql` and `-X`, and the whole vector is independent of the
supplied password. -/
theorem argv_starts_psql_X_and_password_independent (args : Args) (pw : Option String) :
    (∀ v, full_command args = .ok v → ∃ rest, v = "psql" :: "-X" :: rest) ∧
    full_command { args with password := pw } = full_command args := by
  constructor
  · intro v hv
    cases hs : sanitize_dsn (args.dsn.map String.data) with
    | error e => simp [full_command, build_psql_command, hs] at hv
    | ok dsnO =>
      simp only [full_command, build_psql_command, hs, Except.ok.injEq] at hv
      refine ⟨connArgs args dsnO ++
        (if args.on_error_stop then ["-v", "ON_ERROR_STOP=1"] else []) ++
        cmdFileArgs args ++
        (if args.no_pager then ["-P", "pager=off"] else []), ?_⟩
      rw [← hv]
      simp [List.append_assoc]
  · cases args
    rfl

/-- C10 witness at a concrete invocation with a password supplied. -/
theorem argv_starts_psql_X_witness :
    (∃ rest, ["psql", "-X", "-c", "x"] = "psql" :: "-X" :: rest) ∧
    full_command { c10Args with password := some "s3cret" } = full_command c10Args :=
  ⟨(argv_starts_psql_X_and_password_independent c10Args (some "s3cret")).1 _ rfl,
   (argv_starts_psql_X_and_password_independent c10Args (some "s3cret")).2⟩

end PsqlRunner
